import Mathlib

/-!
Verification of the cool-branch worktree manager against its specification.

The development shallowly embeds the core of the program: the layered
configuration resolver, the global folder-name mapping store, the worktree
path resolver, the setup-script locator, the ancillary-file copy policy,
and the lifecycle phases of the add and rename commands.  Filenames are
modelled as lists of characters (the program treats them as JS strings),
directories as lists of filenames, and the persistent JSON files as a
three-state value: missing, malformed, or valid with parsed content.
-/

/-- Filenames and filename fragments are modelled as lists of characters. -/
abbrev FileName := List Char

/-- Models JS `s.startsWith(pre)`: `pre` is a leading segment of `s`. -/
def isPre : FileName → FileName → Bool
  | [], _ => true
  | _ :: _, [] => false
  | p :: ps, c :: cs => decide (p = c) && isPre ps cs

/-- Models JS `s.endsWith(sfx)`: `sfx` is a trailing segment of `s`. -/
def isSuf (sfx : FileName) : FileName → Bool
  | [] => decide (sfx = [])
  | c :: t => decide (c :: t = sfx) || isSuf sfx t

/-- Models JS `s.includes(mid)`: `mid` occurs as a contiguous segment of `s`. -/
def hasSub (mid : FileName) : FileName → Bool
  | [] => isPre mid []
  | c :: t => isPre mid (c :: t) || hasSub mid t

theorem isPre_iff (pre s : FileName) : isPre pre s = true ↔ ∃ t, s = pre ++ t := by
  induction pre generalizing s with
  | nil => simp [isPre]
  | cons p ps ih =>
    cases s with
    | nil => simp [isPre]
    | cons c cs =>
      simp only [isPre, Bool.and_eq_true, decide_eq_true_eq, ih, List.cons_append,
        List.cons.injEq]
      constructor
      · rintro ⟨hpc, t, ht⟩
        exact ⟨t, hpc.symm, ht⟩
      · rintro ⟨t, hcp, ht⟩
        exact ⟨hcp.symm, t, ht⟩

theorem isSuf_iff (sfx s : FileName) : isSuf sfx s = true ↔ ∃ t, s = t ++ sfx := by
  induction s with
  | nil =>
    simp only [isSuf, decide_eq_true_eq]
    constructor
    · intro h
      exact ⟨[], by simp [h]⟩
    · rintro ⟨t, ht⟩
      rcases List.append_eq_nil.mp ht.symm with ⟨-, h2⟩
      exact h2
  | cons c cs ih =>
    simp only [isSuf, Bool.or_eq_true, decide_eq_true_eq, ih]
    constructor
    · rintro (h | ⟨t, ht⟩)
      · exact ⟨[], by simp [h]⟩
      · exact ⟨c :: t, by simp [ht]⟩
    · rintro ⟨t, ht⟩
      cases t with
      | nil => exact Or.inl (by simpa using ht)
      | cons a t' =>
        right
        refine ⟨t', ?_⟩
        have h2 : c = a ∧ cs = t' ++ sfx := by simpa using ht
        exact h2.2

theorem hasSub_iff (mid s : FileName) : hasSub mid s = true ↔ ∃ u v, s = u ++ mid ++ v := by
  induction s with
  | nil =>
    simp only [hasSub, isPre_iff]
    constructor
    · rintro ⟨t, ht⟩
      exact ⟨[], t, by simpa using ht⟩
    · rintro ⟨u, v, huv⟩
      rcases List.append_eq_nil.mp huv.symm with ⟨h1, h2⟩
      rcases List.append_eq_nil.mp h1 with ⟨-, h3⟩
      exact ⟨v, by simp [h3, h2]⟩
  | cons c cs ih =>
    simp only [hasSub, Bool.or_eq_true, isPre_iff, ih]
    constructor
    · rintro (⟨t, ht⟩ | ⟨u, v, huv⟩)
      · exact ⟨[], t, by simpa using ht⟩
      · exact ⟨c :: u, v, by simp [huv]⟩
    · rintro ⟨u, v, huv⟩
      cases u with
      | nil => exact Or.inl ⟨v, by simpa using huv⟩
      | cons a u' =>
        right
        refine ⟨u', v, ?_⟩
        have h2 : c = a ∧ cs = u' ++ (mid ++ v) := by simpa using huv
        simpa using h2.2

/-- The filename suffix `.local` as a character list. -/
def dotLocal : FileName := ".local".data

/-- The filename fragment `.local.` as a character list. -/
def dotLocalDot : FileName := ".local.".data

/-- Modelled from the spec: the `isLocalFile` helper of the final add command
(absent from the source snapshot; only its issue description and tests remain).
An entry is a local variant when its name is exactly `X.local` or has the form
`X.local.<ext>`, i.e. it ends with `.local` or contains `.local.`. -/
def isLocalFile (name : FileName) : Bool :=
  isSuf dotLocal name || hasSub dotLocalDot name

/-- The wording of the copy policy in the spec: a name is a local variant when
it is exactly `X.local` or matches `X.local.<ext>` for some base name `X` and
extension `ext`. -/
def LocalVariantName (name : FileName) : Prop :=
  (∃ x, name = x ++ dotLocal) ∨ (∃ x ext, name = x ++ dotLocalDot ++ ext)

theorem isLocalFile_iff (name : FileName) :
    isLocalFile name = true ↔ LocalVariantName name := by
  simp only [isLocalFile, Bool.or_eq_true, isSuf_iff, hasSub_iff, LocalVariantName]

/-- Copy modes for the ancillary-file copy policy (`all`, `none`, `local`). -/
inductive CopyConfigMode
  | copyAll
  | copyNone
  | copyLocal
deriving DecidableEq, Repr

/-- The built-in default copy mode is `local`. -/
def defaultCopyMode : CopyConfigMode := CopyConfigMode.copyLocal

/-- Modelled from the spec: the `copyCoolBranchDir` helper of the final add
command (absent from the source snapshot).  Given the entries of the source
settings directory it yields the entries materialised into the new worktree
settings directory: everything for `all`, nothing for `none`, and exactly the
local variants for `local`. -/
def copyCoolBranchDir (mode : CopyConfigMode) (srcEntries : List FileName) : List FileName :=
  match mode with
  | CopyConfigMode.copyAll => srcEntries
  | CopyConfigMode.copyNone => []
  | CopyConfigMode.copyLocal => srcEntries.filter isLocalFile

/-- Predicate for a local setup script name, from `findLocalSetupScript`:
exactly `setup.local`, or starting with `setup.local.`. -/
def isLocalSetupName (entry : FileName) : Bool :=
  decide (entry = "setup.local".data) || isPre "setup.local.".data entry

/-- Models `findLocalSetupScript`: first directory entry that is a local setup
script name. -/
def findLocalSetupScript (entries : List FileName) : Option FileName :=
  entries.find? isLocalSetupName

/-- Predicate for a regular setup script name, from `findRegularSetupScript`:
exactly `setup`, or `setup.` followed by something, excluding every name that
starts with `setup.local`. -/
def isRegularSetupName (entry : FileName) : Bool :=
  (decide (entry = "setup".data) ||
    (isPre "setup.".data entry && decide (entry ≠ "setup.".data))) &&
  !(isPre "setup.local".data entry)

/-- Models `findRegularSetupScript`: first directory entry that is a regular
setup script name. -/
def findRegularSetupScript (entries : List FileName) : Option FileName :=
  entries.find? isRegularSetupName

/-- Models `findSetupScript` over a settings directory: a local variant is
returned when one exists, otherwise the regular script if any. -/
def findSetupScriptInSettings (entries : List FileName) : Option FileName :=
  match findLocalSetupScript entries with
  | some p => some p
  | none => findRegularSetupScript entries

/-- Predicate for a legacy root-level setup script name, from
`findLegacySetupScript`: exactly `cool-branch`, or `cool-branch.` followed by
something. -/
def isLegacySetupName (entry : FileName) : Bool :=
  decide (entry = "cool-branch".data) ||
    (isPre "cool-branch.".data entry && decide (entry ≠ "cool-branch.".data))

/-- Models `findLegacySetupScript`: first root-level entry that is a legacy
setup script name. -/
def findLegacySetupScript (rootEntries : List FileName) : Option FileName :=
  rootEntries.find? isLegacySetupName

/-- The complete setup-script locator.  The settings-directory lookup (local
shadowing regular) is taken from the source `findSetupScript`; the placement
of the legacy root-level fallback after both settings-directory lookups is
modelled from the spec, since the final combined locator is absent from the
source snapshot. -/
def findSetupScript (settingsEntries rootEntries : List FileName) : Option FileName :=
  match findSetupScriptInSettings settingsEntries with
  | some p => some p
  | none => findLegacySetupScript rootEntries

/-- Per-repository configuration object (`.cool-branch/config.json` and
`config.local.json`).  Fields `base` and `dirname` follow the source
`LocalConfig`; `remote` and `copyConfig` follow the keys the entry point and
the spec use for the same object. -/
structure LocalConfig where
  base : Option String := none
  dirname : Option String := none
  remote : Option String := none
  copyConfig : Option CopyConfigMode := none
deriving DecidableEq, Repr

/-- State of a persisted JSON file: absent, present but unparsable, or
present with parsed content. -/
inductive FileState (α : Type)
  | missing
  | malformed
  | valid (v : α)
deriving DecidableEq, Repr

/-- Models `parseLocalConfigFile`: a missing file and a file whose parse
fails both yield the empty configuration; only a valid file contributes its
fields. -/
def parseLocalConfigFile : FileState LocalConfig → LocalConfig
  | FileState.missing => {}
  | FileState.malformed => {}
  | FileState.valid c => c

/-- Models the object-spread merge of the two per-repository configuration
objects: a key defined in the local-override object wins, otherwise the
tracked value is used. -/
def mergeLocalConfig (tracked localOv : LocalConfig) : LocalConfig where
  base := localOv.base <|> tracked.base
  dirname := localOv.dirname <|> tracked.dirname
  remote := localOv.remote <|> tracked.remote
  copyConfig := localOv.copyConfig <|> tracked.copyConfig

/-- Models `readLocalConfig`: parse `config.json` and `config.local.json`
and merge them, local values taking precedence. -/
def readLocalConfig (tracked localOv : FileState LocalConfig) : LocalConfig :=
  mergeLocalConfig (parseLocalConfigFile tracked) (parseLocalConfigFile localOv)

/-- Models `getMergedConfig` of the config command, where the two files are
read as generic JSON objects and merged by object spread. -/
def getMergedConfig (baseCfg localCfg : String → Option String) : String → Option String :=
  fun k =>
    match localCfg k with
    | some v => some v
    | none => baseCfg k

/-- The global folder mapping: repository identifier to folder name. -/
abbrev Mapping := List (String × String)

/-- Lookup of a key in the global mapping object. -/
def lookupMap (m : Mapping) (k : String) : Option String :=
  (m.find? (fun p => decide (p.1 = k))).map Prod.snd

/-- Assignment `config[k] = v` on the global mapping object: replaces the
existing entry or appends a new one. -/
def setMap : Mapping → String → String → Mapping
  | [], k, v => [(k, v)]
  | (k', v') :: t, k, v =>
      if k' = k then (k, v) :: t else (k', v') :: setMap t k v

theorem lookupMap_setMap_self (m : Mapping) (k v : String) :
    lookupMap (setMap m k v) k = some v := by
  induction m with
  | nil => simp [setMap, lookupMap]
  | cons p t ih =>
    by_cases h : p.1 = k
    · simp [setMap, h, lookupMap]
    · simpa [setMap, h, lookupMap, List.find?] using ih

/-- Models `readConfig` for the global mapping file `<base>/cool-branch.json`:
a missing file yields the empty mapping, a malformed file is a thrown error,
and a valid file yields its content. -/
def readConfig : FileState Mapping → Except String Mapping
  | FileState.missing => Except.ok []
  | FileState.malformed => Except.error "Failed to parse config file"
  | FileState.valid m => Except.ok m

/-- JS truthiness of `config[repoId]`: an entry bound to the empty string is
treated as absent. -/
def truthyLookup (m : Mapping) (k : String) : Option String :=
  match lookupMap m k with
  | some v => if v = "" then none else some v
  | none => none

/-- JS truthiness of `options?.localDirname`. -/
def optTruthy : Option String → Option String
  | some s => if s = "" then none else some s
  | none => none

/-- Models `getRepoFolderName`: an explicitly supplied local dirname is used
directly without touching the global mapping file; otherwise the mapping is
read, an existing entry is returned, and with no entry the repository root
base name is derived and persisted (via `writeConfig`, which leaves the file
valid with the updated mapping). -/
def getRepoFolderName (repoId repoRootBase : String) (localDirname : Option String)
    (file : FileState Mapping) : Except String (String × FileState Mapping) :=
  match optTruthy localDirname with
  | some d => Except.ok (d, file)
  | none =>
    match readConfig file with
    | Except.error e => Except.error e
    | Except.ok cfg =>
      match truthyLookup cfg repoId with
      | some v => Except.ok (v, file)
      | none =>
          Except.ok (repoRootBase, FileState.valid (setMap cfg repoId repoRootBase))

/-- Models `setRepoFolderName`, the write path of the naming command: read
the mapping and persist the explicitly chosen folder name. -/
def setRepoFolderName (repoId folderName : String) (file : FileState Mapping) :
    Except String (FileState Mapping) :=
  match readConfig file with
  | Except.error e => Except.error e
  | Except.ok cfg => Except.ok (FileState.valid (setMap cfg repoId folderName))

/-- Models `path.join` for two separator-free segments. -/
def pathJoin (a b : String) : String := a ++ "/" ++ b

/-- Models `getWorktreePath`: resolve the folder name, then join base, folder
name and branch name. -/
def getWorktreePath (base branchName repoId repoRootBase : String)
    (localDirname : Option String) (file : FileState Mapping) :
    Except String (String × FileState Mapping) :=
  match getRepoFolderName repoId repoRootBase localDirname file with
  | Except.error e => Except.error e
  | Except.ok (fn, f') => Except.ok (pathJoin (pathJoin base fn) branchName, f')

/-- Models the top-level catch in the entry point: a thrown error produces
exit code 1, a completed command exit code 0. -/
def mainExitCode {α : Type} : Except String α → Nat
  | Except.ok _ => 0
  | Except.error _ => 1

/-- Parsed command-line arguments relevant to configuration resolution. -/
structure Args where
  base : String
  baseExplicit : Bool
  remote : Option String := none
deriving DecidableEq, Repr

/-- The effective configuration computed once per invocation. -/
structure Effective where
  base : String
  localDirname : Option String
  remote : String
deriving DecidableEq, Repr

/-- Models the resolution in the entry point: when a custom config was loaded
from an explicit path it is used in place of the per-repository config;
otherwise the merged per-repository config is used.  The effective base is
the CLI flag when explicitly given, else the config value, else the default
carried in `args.base`; the effective remote is the CLI flag, else the config
value, else `origin`; the local dirname comes from the chosen config. -/
def resolveEffective (args : Args) (customConfig : Option LocalConfig)
    (repoLocal : LocalConfig) : Effective :=
  let localConfig :=
    match customConfig with
    | some c => c
    | none => repoLocal
  { base := if args.baseExplicit then args.base else localConfig.base.getD args.base
    localDirname := localConfig.dirname
    remote := args.remote.getD (localConfig.remote.getD "origin") }

/-- The resolution rule as the spec words it: the first layer, in precedence
order CLI flag, explicit-config file, repository local-override config,
repository tracked config, that defines the key; otherwise the built-in
default. -/
def specFirstDefined (cli explicitCfg localOv tracked : Option String)
    (dflt : String) : String :=
  ((cli <|> explicitCfg) <|> (localOv <|> tracked)).getD dflt

/-- Messages the rename command can emit, by kind. -/
inductive RenameMsg
  | renamedOk
  | moveError
  | revertedNotice
  | inconsistentWarning
deriving DecidableEq, Repr

/-- Outcome of the rename command: final branch list, exit code, messages. -/
structure RenameResult where
  branches : List String
  exitCode : Nat
  msgs : List RenameMsg
deriving DecidableEq, Repr

/-- Effect of `git branch -m old new` on the list of branch names. -/
def renameInList (branches : List String) (oldName newName : String) : List String :=
  branches.map (fun b => if b = oldName then newName else b)

/-- Models the final phase of the rename command: rename the branch, then
move the worktree; when the move fails, attempt a compensating rename back to
the original name and exit with the move error; when that compensating rename
also fails, emit the distinct inconsistent-state warning instead.  The three
booleans stand for the exit status of the corresponding git calls. -/
def renameMovePhase (branches : List String) (oldName newName : String)
    (renameOk moveOk revertOk : Bool) : RenameResult :=
  if !renameOk then
    { branches := branches, exitCode := 1, msgs := [] }
  else
    let b1 := renameInList branches oldName newName
    if moveOk then
      { branches := b1, exitCode := 0, msgs := [RenameMsg.renamedOk] }
    else if revertOk then
      { branches := renameInList b1 newName oldName, exitCode := 1
        msgs := [RenameMsg.moveError, RenameMsg.revertedNotice] }
    else
      { branches := b1, exitCode := 1
        msgs := [RenameMsg.moveError, RenameMsg.inconsistentWarning] }

/-- State of the filesystem at the resolved target path together with the
version-control registration for it: `entries = some l` means a directory
with entries `l` exists there, `none` that nothing exists there. -/
structure TargetState where
  entries : Option (List FileName)
  registered : Bool
deriving DecidableEq, Repr

/-- Models `isNonEmptyDirectory`. -/
def isNonEmptyDirectory : Option (List FileName) → Bool
  | some l => !l.isEmpty
  | none => false

/-- Outcome kind of the CheckTarget phase of the add command. -/
inductive CheckTargetOutcome
  | proceed
  | targetExists
deriving DecidableEq, Repr

/-- Result of the CheckTarget phase: outcome, process exit code (1 on the
failure path, 0 when the command proceeds), and resulting target state. -/
structure CheckTargetResult where
  outcome : CheckTargetOutcome
  exitCode : Nat
  target : TargetState
deriving DecidableEq, Repr

/-- Models the CheckTarget phase of the add command: a non-empty directory at
the target without force is a fatal error that leaves the target untouched;
with force the conflicting directory and its version-control registration are
removed (forced worktree removal, with pruning of stale registrations as the
fallback and again before creation) before proceeding. -/
def addCheckTarget (t : TargetState) (force : Bool) : CheckTargetResult :=
  if isNonEmptyDirectory t.entries then
    if !force then
      { outcome := CheckTargetOutcome.targetExists, exitCode := 1, target := t }
    else
      { outcome := CheckTargetOutcome.proceed, exitCode := 0
        target := { entries := none, registered := false } }
  else
    { outcome := CheckTargetOutcome.proceed, exitCode := 0
      target := { t with registered := false } }

/-- Result of the post-creation phase of the add command. -/
structure AddRunResult where
  copied : List FileName
  settingsDirExists : Bool
  wtSettings : List FileName
  located : Option FileName
  ran : Option FileName
  ok : Bool
deriving DecidableEq, Repr

/-- Modelled from the spec: the post-creation phase of the final add command
(absent from the source snapshot).  After the worktree is created, the copy
policy materialises entries from the repository settings directory into the
new worktree settings directory (created when absent); then, unless setup is
disabled or an explicit override is given, the setup script is searched for
inside the new worktree (its post-copy settings directory, with the legacy
root-level fallback applied to the worktree root); a found script runs with
`scriptOk` as its exit status, and no script found means nothing runs and no
error is reported. -/
def addPostCreate (repoSettings checkoutSettings checkoutRootEntries : List FileName)
    (settingsDirPresent : Bool) (mode : CopyConfigMode) (noSetup : Bool)
    (setupOverride : Option FileName) (scriptOk : Bool) : AddRunResult :=
  let copied := copyCoolBranchDir mode repoSettings
  let dirExists := settingsDirPresent || !copied.isEmpty
  let wt := checkoutSettings ++ copied
  if noSetup then
    { copied := copied, settingsDirExists := dirExists, wtSettings := wt
      located := none, ran := none, ok := true }
  else
    match setupOverride with
    | some p =>
        { copied := copied, settingsDirExists := dirExists, wtSettings := wt
          located := some p, ran := some p, ok := scriptOk }
    | none =>
        match findSetupScript wt checkoutRootEntries with
        | some s =>
            { copied := copied, settingsDirExists := dirExists, wtSettings := wt
              located := some s, ran := some s, ok := scriptOk }
        | none =>
            { copied := copied, settingsDirExists := dirExists, wtSettings := wt
              located := none, ran := none, ok := true }

/-- Claim C8: for every pair of per-repository configuration objects and
every key, the merged configuration takes the local-override value when that
key is defined there, otherwise the tracked value; a key defined in neither
is absent from the merged result (shown both for the generic object merge of
the config command and for the typed merge of `readLocalConfig`). -/
theorem getMergedConfig_local_wins (b l : String → Option String) (k : String)
    (tc lc : LocalConfig) :
    (∀ v, l k = some v → getMergedConfig b l k = some v)
    ∧ (l k = none → getMergedConfig b l k = b k)
    ∧ (getMergedConfig b l k = none ↔ b k = none ∧ l k = none)
    ∧ (∀ v, lc.dirname = some v → (mergeLocalConfig tc lc).dirname = some v)
    ∧ (lc.dirname = none → (mergeLocalConfig tc lc).dirname = tc.dirname)
    ∧ (∀ v, lc.base = some v → (mergeLocalConfig tc lc).base = some v)
    ∧ (lc.base = none → (mergeLocalConfig tc lc).base = tc.base) := by
  refine ⟨?_, ?_, ?_, ?_, ?_, ?_, ?_⟩
  · intro v hv
    simp [getMergedConfig, hv]
  · intro hv
    cases hb : b k <;> simp [getMergedConfig, hv, hb]
  · cases hl : l k <;> cases hb : b k <;> simp [getMergedConfig, hl, hb]
  · intro v hv
    simp [mergeLocalConfig, hv]
  · intro hv
    cases hd : tc.dirname <;> simp [mergeLocalConfig, hv, hd]
  · intro v hv
    simp [mergeLocalConfig, hv]
  · intro hv
    cases hd : tc.base <;> simp [mergeLocalConfig, hv, hd]

/-- Witness for C8 at concrete configurations. -/
theorem getMergedConfig_local_wins_witness :
    getMergedConfig (fun _ => some "T") (fun _ => some "L") "dirname" = some "L"
    ∧ getMergedConfig (fun _ => some "T") (fun _ => none) "dirname" = some "T" :=
  ⟨(getMergedConfig_local_wins (fun _ => some "T") (fun _ => some "L") "dirname" {} {}).1
      "L" rfl,
    ((getMergedConfig_local_wins (fun _ => some "T") (fun _ => none) "dirname" {} {}).2).1 rfl⟩

/-- Claim C1: a dirname supplied from per-repository config is used directly
and never written to the global mapping file; apart from that, the folder
name resolver writes the mapping only when no entry exists for the
repository identity, persisting the name derived from the repository root
base name; the only other write path is the explicit naming command. -/
theorem getRepoFolderName_write_discipline (repoId repoRootBase d : String)
    (file : FileState Mapping) (hd : d ≠ "") :
    getRepoFolderName repoId repoRootBase (some d) file = Except.ok (d, file)
    ∧ (∀ fn f', getRepoFolderName repoId repoRootBase none file = Except.ok (fn, f') →
        f' ≠ file →
          ∃ cfg, readConfig file = Except.ok cfg ∧ truthyLookup cfg repoId = none
            ∧ fn = repoRootBase ∧ f' = FileState.valid (setMap cfg repoId repoRootBase))
    ∧ (∀ name f'', setRepoFolderName repoId name file = Except.ok f'' →
        ∃ cfg, readConfig file = Except.ok cfg
          ∧ f'' = FileState.valid (setMap cfg repoId name)) := by
  refine ⟨by simp [getRepoFolderName, optTruthy, hd], ?_, ?_⟩
  · intro fn f' hok hne
    unfold getRepoFolderName at hok
    simp only [optTruthy] at hok
    cases hr : readConfig file with
    | error e => rw [hr] at hok; exact absurd hok (by simp)
    | ok cfg =>
      rw [hr] at hok
      dsimp only at hok
      cases ht : truthyLookup cfg repoId with
      | some v =>
        rw [ht] at hok
        simp only [Except.ok.injEq, Prod.mk.injEq] at hok
        exact absurd hok.2.symm hne
      | none =>
        rw [ht] at hok
        simp only [Except.ok.injEq, Prod.mk.injEq] at hok
        exact ⟨cfg, rfl, ht, hok.1.symm, hok.2.symm⟩
  · intro name f'' hok
    unfold setRepoFolderName at hok
    cases hr : readConfig file with
    | error e => rw [hr] at hok; exact absurd hok (by simp)
    | ok cfg =>
      rw [hr] at hok
      dsimp only at hok
      simp only [Except.ok.injEq] at hok
      exact ⟨cfg, rfl, hok.symm⟩

/-- Witness for C1 at a concrete mapping state. -/
theorem getRepoFolderName_write_discipline_witness :
    getRepoFolderName "repo-id" "proj" (some "docs") (FileState.valid [("other", "x")]) =
      Except.ok ("docs", FileState.valid [("other", "x")])
    ∧ ∃ cfg, readConfig (FileState.valid [("other", "x")]) = Except.ok cfg
        ∧ truthyLookup cfg "repo-id" = none ∧ "proj" = "proj"
        ∧ FileState.valid (setMap cfg "repo-id" "proj") =
            FileState.valid (setMap cfg "repo-id" "proj") := by
  have h := getRepoFolderName_write_discipline "repo-id" "proj" "docs"
    (FileState.valid [("other", "x")]) (by decide)
  refine ⟨h.1, ?_⟩
  have h2 := h.2.1 "proj" (FileState.valid (setMap [("other", "x")] "repo-id" "proj"))
    rfl (by decide)
  rcases h2 with ⟨cfg, hr, ht, hfn, hf⟩
  exact ⟨cfg, hr, ht, rfl, rfl⟩

/-- Claim C9: with no per-repository dirname in effect, the resolved worktree
path is `join(base, folderName, branch)`, where the folder name is the
existing global-mapping entry for the repository identity when one exists,
and otherwise the repository root base name, which is persisted into the
mapping before the path is returned. -/
theorem getWorktreePath_folder_resolution (base branch repoId repoRootBase : String)
    (cfg : Mapping) :
    (∀ fn, lookupMap cfg repoId = some fn → fn ≠ "" →
        getWorktreePath base branch repoId repoRootBase none (FileState.valid cfg) =
          Except.ok (pathJoin (pathJoin base fn) branch, FileState.valid cfg))
    ∧ (lookupMap cfg repoId = none →
        getWorktreePath base branch repoId repoRootBase none (FileState.valid cfg) =
          Except.ok (pathJoin (pathJoin base repoRootBase) branch,
            FileState.valid (setMap cfg repoId repoRootBase))
        ∧ lookupMap (setMap cfg repoId repoRootBase) repoId = some repoRootBase) := by
  constructor
  · intro fn hfn hne
    simp [getWorktreePath, getRepoFolderName, optTruthy, readConfig, truthyLookup, hfn, hne]
  · intro hnone
    refine ⟨?_, lookupMap_setMap_self cfg repoId repoRootBase⟩
    simp [getWorktreePath, getRepoFolderName, optTruthy, readConfig, truthyLookup, hnone]

/-- Witness for C9 at a concrete mapping. -/
theorem getWorktreePath_folder_resolution_witness :
    getWorktreePath "/b" "x" "repo-id" "proj" none (FileState.valid [("repo-id", "nm")]) =
      Except.ok ("/b/nm/x", FileState.valid [("repo-id", "nm")])
    ∧ getWorktreePath "/b" "x" "repo-id" "proj" none (FileState.valid []) =
        Except.ok ("/b/proj/x", FileState.valid [("repo-id", "proj")]) := by
  constructor
  · exact (getWorktreePath_folder_resolution "/b" "x" "repo-id" "proj"
      [("repo-id", "nm")]).1 "nm" (by decide) (by decide)
  · exact ((getWorktreePath_folder_resolution "/b" "x" "repo-id" "proj" []).2 (by decide)).1

/-- Claim C10 counterexample: an operation that resolves a repository folder
name need not fail when the global mapping file is malformed — with a
per-repository dirname in effect the resolver never reads the file and
succeeds, exiting 0. -/
theorem readConfig_malformed_not_fatal_with_local_dirname :
    getRepoFolderName "repo-id" "proj" (some "docs") FileState.malformed =
      Except.ok ("docs", FileState.malformed)
    ∧ mainExitCode
        (getRepoFolderName "repo-id" "proj" (some "docs") FileState.malformed) = 0 :=
  ⟨rfl, rfl⟩

/-- Claim C10 as amended: when the global mapping file exists but is
malformed, every folder-name resolution that consults it (no per-repository
dirname in effect) throws, so the command exits nonzero — the write path of
the naming command included — whereas a malformed per-repository config file
yields an empty configuration instead of an error. -/
theorem readConfig_malformed_fatal_without_local_dirname
    (base branch repoId repoRootBase name : String) :
    (∃ e, getRepoFolderName repoId repoRootBase none FileState.malformed =
        Except.error e)
    ∧ (∃ e, getWorktreePath base branch repoId repoRootBase none FileState.malformed =
        Except.error e)
    ∧ (∃ e, setRepoFolderName repoId name FileState.malformed = Except.error e)
    ∧ mainExitCode (getRepoFolderName repoId repoRootBase none FileState.malformed) = 1
    ∧ parseLocalConfigFile FileState.malformed = {} :=
  ⟨⟨"Failed to parse config file", rfl⟩, ⟨"Failed to parse config file", rfl⟩,
    ⟨"Failed to parse config file", rfl⟩, rfl, rfl⟩

/-- Claim C2 counterexample: with an explicit config path in effect, a key it
leaves undefined is not taken from the per-repository config — the tracked
config defines `remote = upstream`, the spec-side first-defined-layer rule
yields `upstream`, but the program resolves `origin`. -/
theorem resolveEffective_explicit_config_skips_repo_layer :
    (resolveEffective { base := "~/.worktrees", baseExplicit := false, remote := none }
        (some {}) (mergeLocalConfig { remote := some "upstream" } {})).remote = "origin"
    ∧ specFirstDefined none none none (some "upstream") "origin" = "upstream"
    ∧ (resolveEffective { base := "~/.worktrees", baseExplicit := false, remote := none }
        (some {}) (mergeLocalConfig { remote := some "upstream" } {})).remote ≠
        specFirstDefined none none none (some "upstream") "origin" :=
  ⟨rfl, rfl, by decide⟩

/-- Claim C2 as amended: without an explicit config path, each key resolves
to the first defined layer in order CLI flag, local-override config, tracked
config, built-in default; with an explicit config path, the loaded custom
config replaces the per-repository layers entirely, so a key it leaves
undefined falls through to the built-in default rather than to per-repository
config. -/
theorem resolveEffective_layering (args : Args) (cc lo tr : LocalConfig) :
    ((resolveEffective args none (mergeLocalConfig tr lo)).base =
        specFirstDefined (if args.baseExplicit then some args.base else none) none
          lo.base tr.base args.base
      ∧ (resolveEffective args none (mergeLocalConfig tr lo)).remote =
        specFirstDefined args.remote none lo.remote tr.remote "origin"
      ∧ (resolveEffective args none (mergeLocalConfig tr lo)).localDirname =
        (lo.dirname <|> tr.dirname))
    ∧ ((resolveEffective args (some cc) (mergeLocalConfig tr lo)).base =
        specFirstDefined (if args.baseExplicit then some args.base else none) cc.base
          none none args.base
      ∧ (resolveEffective args (some cc) (mergeLocalConfig tr lo)).remote =
        specFirstDefined args.remote cc.remote none none "origin"
      ∧ (resolveEffective args (some cc) (mergeLocalConfig tr lo)).localDirname =
        cc.dirname) := by
  refine ⟨⟨?_, ?_, rfl⟩, ⟨?_, ?_, rfl⟩⟩
  · cases hb : args.baseExplicit <;>
      cases h1 : lo.base <;> cases h2 : tr.base <;>
        simp [resolveEffective, specFirstDefined, mergeLocalConfig, hb, h1, h2]
  · cases hr : args.remote <;>
      cases h1 : lo.remote <;> cases h2 : tr.remote <;>
        simp [resolveEffective, specFirstDefined, mergeLocalConfig, hr, h1, h2]
  · cases hb : args.baseExplicit <;> cases h1 : cc.base <;>
      simp [resolveEffective, specFirstDefined, hb, h1]
  · cases hr : args.remote <;> cases h1 : cc.remote <;>
      simp [resolveEffective, specFirstDefined, hr, h1]

theorem renameInList_roundtrip (br : List String) (o n : String) (h2 : n ∉ br) :
    renameInList (renameInList br o n) n o = br := by
  induction br with
  | nil => rfl
  | cons b t ih =>
    have hbn : b ≠ n := fun h => h2 (h ▸ List.mem_cons_self b t)
    have hnt : n ∉ t := fun h => h2 (List.mem_cons_of_mem b h)
    by_cases hbo : b = o
    · simp [renameInList, hbo, ih hnt] at *
      simpa [renameInList] using ih hnt
    · simp only [renameInList, List.map_cons, if_neg hbo, if_neg hbn]
      simpa [renameInList] using ih hnt

/-- Claim C3: when the worktree move fails after the branch rename succeeded,
the rename command issues a compensating rename back to the original name and
exits nonzero with the move error, so the branch again exists under its
original name and not under the attempted one; when the compensating rename
itself fails, the distinct inconsistent-state warning is emitted instead of
the reverted notice, and it never appears when the revert succeeds. -/
theorem renameCommand_move_failure_rollback (branches : List String)
    (oldName newName : String) (h1 : oldName ∈ branches) (h2 : newName ∉ branches) :
    (renameMovePhase branches oldName newName true false true).branches = branches
    ∧ oldName ∈ (renameMovePhase branches oldName newName true false true).branches
    ∧ newName ∉ (renameMovePhase branches oldName newName true false true).branches
    ∧ (renameMovePhase branches oldName newName true false true).exitCode = 1
    ∧ RenameMsg.moveError ∈ (renameMovePhase branches oldName newName true false true).msgs
    ∧ RenameMsg.inconsistentWarning ∉
        (renameMovePhase branches oldName newName true false true).msgs
    ∧ (renameMovePhase branches oldName newName true false false).exitCode = 1
    ∧ RenameMsg.moveError ∈ (renameMovePhase branches oldName newName true false false).msgs
    ∧ RenameMsg.inconsistentWarning ∈
        (renameMovePhase branches oldName newName true false false).msgs
    ∧ RenameMsg.revertedNotice ∉
        (renameMovePhase branches oldName newName true false false).msgs := by
  have hb : (renameMovePhase branches oldName newName true false true).branches = branches := by
    simp [renameMovePhase, renameInList_roundtrip branches oldName newName h2]
  refine ⟨hb, by rw [hb]; exact h1, by rw [hb]; exact h2, ?_, ?_, ?_, ?_, ?_, ?_, ?_⟩ <;>
    simp [renameMovePhase]

/-- Witness for C3 at a concrete branch list. -/
theorem renameCommand_move_failure_rollback_witness :
    (renameMovePhase ["main", "feature"] "feature" "feature-1" true false true).branches =
      ["main", "feature"]
    ∧ (renameMovePhase ["main", "feature"] "feature" "feature-1" true false false).msgs =
      [RenameMsg.moveError, RenameMsg.inconsistentWarning] := by
  have h := renameCommand_move_failure_rollback ["main", "feature"] "feature" "feature-1"
    (by decide) (by decide)
  exact ⟨h.1, by decide⟩

/-- Claim C4: when the resolved target path is a non-empty directory, add
without force fails with the target-exists error and exit code 1, leaving the
target untouched; with force the conflicting directory and its stale
version-control registration are removed before the command proceeds. -/
theorem addCommand_checkTarget_spec (t : TargetState) (force : Bool) :
    (isNonEmptyDirectory t.entries = true → force = false →
        addCheckTarget t force =
          { outcome := CheckTargetOutcome.targetExists, exitCode := 1, target := t })
    ∧ (isNonEmptyDirectory t.entries = true → force = true →
        addCheckTarget t force =
          { outcome := CheckTargetOutcome.proceed, exitCode := 0
            target := { entries := none, registered := false } }) := by
  constructor
  · intro h hf
    simp [addCheckTarget, h, hf]
  · intro h hf
    simp [addCheckTarget, h, hf]

/-- Witness for C4 at a concrete non-empty target directory. -/
theorem addCommand_checkTarget_spec_witness :
    addCheckTarget { entries := some ["f".data], registered := true } false =
      { outcome := CheckTargetOutcome.targetExists, exitCode := 1
        target := { entries := some ["f".data], registered := true } }
    ∧ addCheckTarget { entries := some ["f".data], registered := true } true =
      { outcome := CheckTargetOutcome.proceed, exitCode := 0
        target := { entries := none, registered := false } } :=
  ⟨(addCommand_checkTarget_spec { entries := some ["f".data], registered := true }
      false).1 (by decide) rfl,
    (addCommand_checkTarget_spec { entries := some ["f".data], registered := true }
      true).2 (by decide) rfl⟩

/-- Claim C6: the setup-script locator returns a local setup name whenever the
settings directory contains one; with no local variant present it returns a
regular setup name when one exists; and the legacy root-level lookup is
consulted exactly when both settings-directory lookups yield nothing — a
non-local script is never selected while a local variant is present. -/
theorem findSetupScript_priority (se re : List FileName) :
    ((∃ e ∈ se, isLocalSetupName e = true) →
        ∃ d, findSetupScript se re = some d ∧ isLocalSetupName d = true)
    ∧ ((∀ e ∈ se, isLocalSetupName e = false) → (∃ e ∈ se, isRegularSetupName e = true) →
        ∃ d, findSetupScript se re = some d ∧ isRegularSetupName d = true)
    ∧ (findSetupScriptInSettings se = none → findSetupScript se re = findLegacySetupScript re)
    ∧ (∀ d, findSetupScriptInSettings se = some d → findSetupScript se re = some d) := by
  refine ⟨?_, ?_, ?_, ?_⟩
  · rintro ⟨x, hx, hp⟩
    have hs : (se.find? isLocalSetupName).isSome := List.find?_isSome.mpr ⟨x, hx, hp⟩
    rcases Option.isSome_iff_exists.mp hs with ⟨d, hd⟩
    refine ⟨d, ?_, List.find?_some hd⟩
    simp [findSetupScript, findSetupScriptInSettings, findLocalSetupScript, hd]
  · intro hnl hreg
    have hlnone : se.find? isLocalSetupName = none := by
      rw [List.find?_eq_none]
      intro x hx
      simp [hnl x hx]
    rcases hreg with ⟨x, hx, hp⟩
    have hs : (se.find? isRegularSetupName).isSome := List.find?_isSome.mpr ⟨x, hx, hp⟩
    rcases Option.isSome_iff_exists.mp hs with ⟨d, hd⟩
    refine ⟨d, ?_, List.find?_some hd⟩
    simp [findSetupScript, findSetupScriptInSettings, findLocalSetupScript,
      findRegularSetupScript, hlnone, hd]
  · intro hnone
    simp [findSetupScript, hnone]
  · intro d hd
    simp [findSetupScript, hd]

/-- Witness for C6 at a concrete settings directory. -/
theorem findSetupScript_priority_witness :
    (∃ d, findSetupScript ["setup.sh".data, "setup.local".data] [] = some d
        ∧ isLocalSetupName d = true)
    ∧ (∃ d, findSetupScript ["setup.sh".data] [] = some d ∧ isRegularSetupName d = true)
    ∧ findSetupScript ["setup.localfoo".data] ["cool-branch.sh".data] =
        findLegacySetupScript ["cool-branch.sh".data] :=
  ⟨(findSetupScript_priority ["setup.sh".data, "setup.local".data] []).1
      ⟨"setup.local".data, by decide, by decide⟩,
    ((findSetupScript_priority ["setup.sh".data] []).2).1 (by decide)
      ⟨"setup.sh".data, by decide, by decide⟩,
    ((findSetupScript_priority ["setup.localfoo".data] ["cool-branch.sh".data]).2).2.1
      (by decide)⟩

theorem addPostCreate_fields (rs cs cr : List FileName) (sp : Bool)
    (mode : CopyConfigMode) (ns : Bool) (ov : Option FileName) (so : Bool) :
    (addPostCreate rs cs cr sp mode ns ov so).copied = copyCoolBranchDir mode rs
    ∧ (addPostCreate rs cs cr sp mode ns ov so).wtSettings =
        cs ++ copyCoolBranchDir mode rs
    ∧ (addPostCreate rs cs cr sp mode ns ov so).settingsDirExists =
        (sp || !(copyCoolBranchDir mode rs).isEmpty) := by
  cases ns with
  | true => cases ov <;> simp [addPostCreate]
  | false =>
    cases ov with
    | some p => simp [addPostCreate]
    | none =>
      cases h : findSetupScript (cs ++ copyCoolBranchDir mode rs) cr <;>
        simp [addPostCreate, h]

/-- Claim C5: with no explicit setup override, the setup-script search of the
add command is performed over the new worktree settings directory as it
stands after the ancillary copy step (not over the original repository), and
when it finds nothing the command executes no script and completes without
error; in particular, under the default copy mode a repository whose settings
directory holds only non-local entries yields a worktree with no script to
run even though the repository itself contains one. -/
theorem addCommand_setup_search_in_worktree
    (rs cs cr : List FileName) (sp : Bool) (mode : CopyConfigMode) (so : Bool) :
    (addPostCreate rs cs cr sp mode false none so).located =
      findSetupScript (cs ++ copyCoolBranchDir mode rs) cr
    ∧ (findSetupScript (cs ++ copyCoolBranchDir mode rs) cr = none →
        (addPostCreate rs cs cr sp mode false none so).ran = none
        ∧ (addPostCreate rs cs cr sp mode false none so).ok = true)
    ∧ ((∀ e ∈ rs, isLocalFile e = false) →
        (addPostCreate rs [] [] sp CopyConfigMode.copyLocal false none so).ran = none
        ∧ (addPostCreate rs [] [] sp CopyConfigMode.copyLocal false none so).ok = true) := by
  refine ⟨?_, ?_, ?_⟩
  · cases h : findSetupScript (cs ++ copyCoolBranchDir mode rs) cr <;>
      simp [addPostCreate, h]
  · intro h
    simp [addPostCreate, h]
  · intro h
    have hfil : rs.filter isLocalFile = [] := by
      rw [List.filter_eq_nil_iff]
      intro a ha
      simp [h a ha]
    simp [addPostCreate, copyCoolBranchDir, hfil, findSetupScript,
      findSetupScriptInSettings, findLocalSetupScript, findRegularSetupScript,
      findLegacySetupScript]

/-- Witness for C5 at a concrete repository whose settings directory holds
only a non-local `setup` script. -/
theorem addCommand_setup_search_in_worktree_witness :
    (addPostCreate ["setup".data] [] [] true CopyConfigMode.copyLocal false none true).ran =
      none
    ∧ (addPostCreate ["setup".data] [] [] true CopyConfigMode.copyLocal false none
        true).ok = true :=
  ((addCommand_setup_search_in_worktree ["setup".data] [] [] true
    CopyConfigMode.copyLocal true).2).2 (by decide)

/-- Claim C7: under the default copy mode, the entries materialised into the
new worktree settings directory are exactly the entries of the repository
settings directory whose name is `X.local` or `X.local.<ext>` (no other entry
is copied); the worktree settings directory exists afterwards whenever
anything was copied, and the post-copy worktree settings content — consumed
by the subsequent setup-script step — is the checkout content extended by the
copied entries. -/
theorem addCommand_copies_exactly_local_variants
    (rs cs cr : List FileName) (sp ns : Bool) (ov : Option FileName) (so : Bool) :
    (addPostCreate rs cs cr sp defaultCopyMode ns ov so).copied =
      rs.filter isLocalFile
    ∧ (∀ e, e ∈ (addPostCreate rs cs cr sp defaultCopyMode ns ov so).copied ↔
        e ∈ rs ∧ LocalVariantName e)
    ∧ ((addPostCreate rs cs cr sp defaultCopyMode ns ov so).copied ≠ [] →
        (addPostCreate rs cs cr sp defaultCopyMode ns ov so).settingsDirExists = true)
    ∧ (addPostCreate rs cs cr sp defaultCopyMode ns ov so).wtSettings =
        cs ++ (addPostCreate rs cs cr sp defaultCopyMode ns ov so).copied := by
  obtain ⟨hc, hw, hs⟩ := addPostCreate_fields rs cs cr sp defaultCopyMode ns ov so
  refine ⟨?_, ?_, ?_, ?_⟩
  · rw [hc]; rfl
  · intro e
    rw [hc]
    show e ∈ rs.filter isLocalFile ↔ _
    rw [List.mem_filter, isLocalFile_iff]
  · intro hne
    rw [hs]
    rw [hc] at hne
    have : ¬(copyCoolBranchDir defaultCopyMode rs).isEmpty := by
      simpa [copyCoolBranchDir, defaultCopyMode, List.isEmpty_iff] using hne
    simp [this]
  · rw [hw, hc]

/-- Witness for C7 at a concrete settings directory holding one local and one
tracked entry. -/
theorem addCommand_copies_exactly_local_variants_witness :
    (addPostCreate ["config.json".data, "setup.local.sh".data] [] [] false
        defaultCopyMode false none true).copied = ["setup.local.sh".data]
    ∧ (addPostCreate ["config.json".data, "setup.local.sh".data] [] [] false
        defaultCopyMode false none true).settingsDirExists = true := by
  have h := addCommand_copies_exactly_local_variants
    ["config.json".data, "setup.local.sh".data] [] [] false false none true
  have hc : (addPostCreate ["config.json".data, "setup.local.sh".data] [] [] false
      defaultCopyMode false none true).copied = ["setup.local.sh".data] :=
    h.1.trans (by decide)
  exact ⟨hc, (h.2.2.1) (by rw [hc]; decide)⟩
